import Mathlib

/-!
Verification development for the tzgo block/operation confirmation observer
(`rpc` package, `observer.go`) and the taqueria configuration glue
(`internal/compose/taqconfig.go`).

The Go code is shallowly embedded: Go maps become association lists with
decidable-equality keys, pointer mutation becomes entry replacement, the
background loop becomes an explicit step function over an environment oracle,
and callback invocations are recorded as explicit event values so that
delivery properties can be stated.
-/

namespace TzgoObs

/-- Operation hashes are fixed-size byte strings with decidable equality in the
source (`tezos.OpHash`); we model them abstractly as naturals. -/
abbrev OpHash := Nat

/-- Block hashes (`tezos.BlockHash`), modelled abstractly. -/
abbrev BlockHash := Nat

/-- `ObserverCallback func(tezos.BlockHash, int64, int, int, bool) bool` -/
abbrev ObserverCallback := BlockHash → Int → Int → Int → Bool → Bool

/-- Association-list lookup, modelling Go map read `m[k]` with `ok` flag. -/
def alookup {α β : Type} [DecidableEq α] (k : α) : List (α × β) → Option β
  | [] => none
  | (k', v) :: rest => if k' = k then some v else alookup k rest

/-- Association-list erase, modelling Go `delete(m, k)`: removes every binding
of `k` (a Go map holds at most one). -/
def aerase {α β : Type} [DecidableEq α] (k : α) : List (α × β) → List (α × β)
  | [] => []
  | (k', v') :: rest => if k' = k then aerase k rest else (k', v') :: aerase k rest

/-- Association-list insert, modelling Go map write `m[k] = v`: the new binding
shadows and replaces any old one.  Iteration order of a Go map is unspecified,
so the position of the new binding carries no meaning. -/
def ainsert {α β : Type} [DecidableEq α] (k : α) (v : β) (l : List (α × β)) :
    List (α × β) :=
  (k, v) :: aerase k l

/-- `observerSubscription` from observer.go: id, callback, watched op hash,
and the `matched` flag. -/
structure observerSubscription where
  id : Nat
  cb : ObserverCallback
  oh : OpHash
  matched : Bool

/-- The shared mutable state of an `Observer`: the subscription map `subs`,
the watched-hash index `watched`, the recent-inclusion cache `recent`
(hash to `[3]int64{height, batch, pos}`), the id counter `seq`, and the
best-head fields. -/
structure Observer where
  subs : List (Nat × observerSubscription)
  watched : List (OpHash × Nat)
  recent : List (OpHash × (Int × Int × Int))
  seq : Nat
  bestHash : BlockHash
  bestHeight : Int

/-- `NewObserver` initial state (hash/height zero-valued). -/
def NewObserver : Observer :=
  { subs := [], watched := [], recent := [], seq := 0, bestHash := 0, bestHeight := 0 }

/-- A recorded callback invocation: which watcher id was called and with which
arguments `(blockHash, height, batch, pos, isFinal)`. -/
structure CbEvent where
  wid : Nat
  block : BlockHash
  height : Int
  batch : Int
  pos : Int
  final : Bool
deriving DecidableEq

/-- `Subscribe(oh, cb)`: allocate the next id, store the watcher, index the
hash; if `oh` is in the recent cache, invoke the callback synchronously with
the cached position and best hash, and delete the subs entry if it returns
true.  Returns (new state, assigned id, callback events emitted). -/
def Subscribe (m : Observer) (oh : OpHash) (cb : ObserverCallback) :
    Observer × Nat × List CbEvent :=
  let seq := m.seq + 1
  let m := { m with
    seq := seq
    subs := ainsert seq ⟨seq, cb, oh, false⟩ m.subs
    watched := ainsert oh seq m.watched }
  match alookup oh m.recent with
  | some pos =>
    match alookup seq m.subs with
    | some mtch =>
      let ev : CbEvent := ⟨mtch.id, m.bestHash, pos.1, pos.2.1, pos.2.2, false⟩
      if mtch.cb m.bestHash pos.1 pos.2.1 pos.2.2 false then
        ({ m with subs := aerase mtch.id m.subs }, seq, [ev])
      else
        (m, seq, [ev])
    | none => (m, seq, [])
  | none => (m, seq, [])

/-- `Unsubscribe(id)`: if the id is known, delete the watched index entry for
its hash and the subs entry; otherwise no-op. -/
def Unsubscribe (m : Observer) (id : Nat) : Observer :=
  match alookup id m.subs with
  | some req => { m with watched := aerase req.oh m.watched, subs := aerase id m.subs }
  | none => m

/-- `Close()`: cancel and reset all three maps (seq and best-head fields are
kept, as in the source). -/
def Close (m : Observer) : Observer :=
  { m with subs := [], watched := [], recent := [] }

/-- The per-block first pass of `listenBlocks`: for every subscription already
`matched`, invoke its callback with `(headBlock, -1, -1, -1, false)` and delete
it when the callback returns true.  Iterates the map snapshot in order,
mirroring the Go `for _, v := range m.subs` with in-loop deletion of the
visited entry. -/
def depthPass (hb : BlockHash) : List (Nat × observerSubscription) →
    List (Nat × observerSubscription) × List CbEvent
  | [] => ([], [])
  | (id, v) :: rest =>
    let (rest', evs) := depthPass hb rest
    if v.matched then
      let ev : CbEvent := ⟨v.id, hb, -1, -1, -1, false⟩
      if v.cb hb (-1) (-1) (-1) false then
        (rest', ev :: evs)
      else
        ((id, v) :: rest', ev :: evs)
    else
      ((id, v) :: rest', evs)

/-- Processing of a single operation hash `h` at batch `l`, position `n` of
the fetched block: record it in the recent cache, look it up in the watched
index, re-check the subs map, cross-check the stored hash, then invoke the
callback with `(headBlock, headHeight, l, n, false)`; a true return deletes
the watcher, false sets `matched`. -/
def processHash (hb : BlockHash) (hh : Int) (l n : Int) (h : OpHash) (m : Observer) :
    Observer × List CbEvent :=
  let m := { m with recent := ainsert h (hh, l, n) m.recent }
  match alookup h m.watched with
  | none => (m, [])
  | some id =>
    match alookup id m.subs with
    | none => (m, [])
    | some mtch =>
      if mtch.oh = h then
        let ev : CbEvent := ⟨mtch.id, hb, hh, l, n, false⟩
        if mtch.cb hb hh l n false then
          ({ m with subs := aerase mtch.id m.subs }, [ev])
        else
          ({ m with subs := ainsert id { mtch with matched := true } m.subs }, [ev])
      else (m, [])

/-- Inner loop `for n, h := range list` over one batch. -/
def processBatch (hb : BlockHash) (hh : Int) (l : Int) (n : Int) :
    List OpHash → Observer → Observer × List CbEvent
  | [], m => (m, [])
  | h :: rest, m =>
    let (m1, evs1) := processHash hb hh l n h m
    let (m2, evs2) := processBatch hb hh l (n + 1) rest m1
    (m2, evs1 ++ evs2)

/-- Outer loop `for l, list := range ohs` over the fetched block's batches. -/
def processBatches (hb : BlockHash) (hh : Int) (l : Int) :
    List (List OpHash) → Observer → Observer × List CbEvent
  | [], m => (m, [])
  | list :: rest, m =>
    let (m1, evs1) := processBatch hb hh l 0 list m
    let (m2, evs2) := processBatches hb hh (l + 1) rest m1
    (m2, evs1 ++ evs2)

/-- One reconciliation cycle of `listenBlocks` for a new head `(hb, hh)`, given
the result of `GetBlockOperationHashes` (`none` models a fetch error): first
the depth pass over already-matched subscriptions; on fetch failure the cycle
is abandoned (`continue`) with no cache clear, no match pass and no best-head
update; on success the recent cache is cleared, the block's hashes are
processed, and `bestHash`/`bestHeight` are updated. -/
def processCycle (m : Observer) (hb : BlockHash) (hh : Int)
    (fetched : Option (List (List OpHash))) : Observer × List CbEvent :=
  let (subs1, evs1) := depthPass hb m.subs
  let m1 := { m with subs := subs1 }
  match fetched with
  | none => (m1, evs1)
  | some ohs =>
    let m2 := { m1 with recent := [] }
    let (m3, evs2) := processBatches hb hh 0 ohs m2
    ({ m3 with bestHash := hb, bestHeight := hh }, evs1 ++ evs2)

/-- The operations that can act on the shared observer state: caller-side
Subscribe, Unsubscribe and Close, and an engine reconciliation cycle for a
fetched head (`fetched = none` models a failed operation-hash fetch). -/
inductive ObsStep where
  | subscribe (oh : OpHash) (cb : ObserverCallback)
  | unsubscribe (id : Nat)
  | close
  | dispatch (hb : BlockHash) (hh : Int) (fetched : Option (List (List OpHash)))

/-- Apply one step to the observer state, discarding returned ids and events. -/
def applyStep (m : Observer) : ObsStep → Observer
  | .subscribe oh cb => (Subscribe m oh cb).1
  | .unsubscribe id => Unsubscribe m id
  | .close => Close m
  | .dispatch hb hh fetched => (processCycle m hb hh fetched).1

/-- Run a sequence of steps from a given state; states reachable from
`NewObserver` are exactly `runSteps NewObserver steps`. -/
def runSteps (m : Observer) : List ObsStep → Observer
  | [] => m
  | s :: rest => runSteps (applyStep m s) rest

/-- The two-map invariant claimed by the spec: every watcher id occurring as a
value of the watched-hash index is a key of the subscription map. -/
def watchedSubsInv (m : Observer) : Bool :=
  m.watched.all fun p => (alookup p.2 m.subs).isSome

/-- The weaker invariant that does hold: every id occurring as a value of the
watched-hash index has been assigned by some past Subscribe, i.e. is positive
and at most the current `seq` counter. -/
def watchedIdsAssigned (m : Observer) : Prop :=
  ∀ p ∈ m.watched, 1 ≤ p.2 ∧ p.2 ≤ m.seq

/- ### The `listenBlocks` loop as a step machine

One pass through the body of the `for` loop in `listenBlocks` becomes one
`listenStep`, driven by an environment record holding that pass's RPC results
and cancellation observations. -/

/-- Environment oracle for one pass through the loop body: the cancellation
flag at the top-of-loop check, the stream-open result (`some status` is an
error with that `ErrorStatus`), cancellation during a backoff or poll wait,
the stream receive result, the tip-header and block-hash-by-level results, and
the operation-hash fetch result. -/
structure CycleEnv where
  done : Bool
  openRes : Option Nat
  doneInBackoff : Bool
  recvRes : Option (BlockHash × Int)
  tipRes : Option Int
  hashRes : Option BlockHash
  fetched : Option (List (List OpHash))
  doneInWait : Bool

/-- Loop-local state of `listenBlocks`: the shared observer state, whether a
header-stream monitor is open (`mon != nil`), the `useEvents` and `firstLoop`
flags, and whether the loop has returned. -/
structure LoopState where
  obs : Observer
  mon : Bool
  useEvents : Bool
  firstLoop : Bool
  stopped : Bool

/-- Loop state right after `Listen` starts the goroutine. -/
def initLoopState (m : Observer) : LoopState :=
  { obs := m, mon := false, useEvents := true, firstLoop := true, stopped := false }

/-- Observable actions of one loop pass: an attempt to open a header stream, a
blocking receive on the open stream, a tip poll, and a delivered callback. -/
inductive LoopAction where
  | openAttempt
  | recvWait
  | pollTip
  | deliver (ev : CbEvent)
deriving DecidableEq

/-- Head processing shared by both modes: skip when the head equals `bestHash`
in poll mode (waiting half the minimum delay), otherwise run the
reconciliation cycle; in poll mode wait the full minimum delay afterwards,
honouring cancellation during either wait. -/
def processHead (env : CycleEnv) (ls : LoopState) (acts : List LoopAction)
    (hb : BlockHash) (hh : Int) : LoopState × List LoopAction :=
  if hb = ls.obs.bestHash ∧ ls.useEvents = false then
    (if env.doneInWait then { ls with stopped := true } else ls, acts)
  else
    let r := processCycle ls.obs hb hh env.fetched
    let ls1 := { ls with obs := r.1 }
    (if ls1.useEvents = false ∧ env.doneInWait then { ls1 with stopped := true } else ls1,
     acts ++ r.2.map LoopAction.deliver)

/-- Head acquisition after the (re)connect phase: the streaming receive is
used only when a monitor is open, `useEvents` holds and this is not the first
pass; otherwise the tip is polled and its canonical hash resolved, each error
abandoning the pass (with a cancellable backoff after a tip error). -/
def acquireHead (env : CycleEnv) (ls : LoopState) (acts : List LoopAction) :
    LoopState × List LoopAction :=
  if ls.mon = true ∧ ls.useEvents = true ∧ ls.firstLoop = false then
    match env.recvRes with
    | none => ({ ls with mon := false }, acts ++ [.recvWait])
    | some (hb, hh) => processHead env { ls with firstLoop := false } (acts ++ [.recvWait]) hb hh
  else
    match env.tipRes with
    | none =>
      (if env.doneInBackoff then { ls with stopped := true } else ls, acts ++ [.pollTip])
    | some lvl =>
      match env.hashRes with
      | none => (ls, acts ++ [.pollTip])
      | some hb => processHead env { ls with firstLoop := false } (acts ++ [.pollTip]) hb lvl

/-- One pass through the body of the `listenBlocks` loop: the cancellation
check, then the (re)connect phase — attempted only when no monitor is open and
`useEvents` still holds, with a 404 open failure clearing `useEvents`
permanently and any other failure backing off — then head acquisition and
processing. -/
def listenStep (env : CycleEnv) (ls : LoopState) : LoopState × List LoopAction :=
  if ls.stopped = true then (ls, [])
  else if env.done then ({ ls with stopped := true }, [])
  else if ls.mon = false ∧ ls.useEvents = true then
    match env.openRes with
    | some status =>
      if status = 404 then ({ ls with useEvents := false }, [.openAttempt])
      else if env.doneInBackoff then ({ ls with stopped := true }, [.openAttempt])
      else (ls, [.openAttempt])
    | none => acquireHead env { ls with mon := true } [.openAttempt]
  else acquireHead env ls []

/-- Run the loop over a list of per-pass environments, collecting actions. -/
def runLoop (ls : LoopState) : List CycleEnv → LoopState × List LoopAction
  | [] => (ls, [])
  | env :: rest =>
    let (ls1, a1) := listenStep env ls
    let (ls2, a2) := runLoop ls1 rest
    (ls2, a1 ++ a2)

/-- An action of the streaming path: a stream-open attempt or a stream
receive.  The polling path emits neither. -/
def isStreamAction : LoopAction → Bool
  | .openAttempt => true
  | .recvWait => true
  | _ => false

/- ### Lock discipline of one successful reconciliation cycle

The body of `listenBlocks` from the depth pass to the best-head update, as a
straight line of primitive phases in program order, with the acquisitions and
releases of the shared mutex `m.mu` made explicit. -/

/-- The primitive phases of a successful reconciliation cycle. -/
inductive CyclePhase where
  | lockMu
  | unlockMu
  | depthCallbacks
  | fetchOps
  | clearRecent
  | repopulateAndMatch
  | updateBest
deriving DecidableEq

/-- The phases of one successful cycle in program order: lock, depth-pass
callbacks, unlock; fetch the block operation hashes; clear the recent cache;
lock, repopulate the cache and match watchers, update the best head, unlock. -/
def cyclePhases : List CyclePhase :=
  [.lockMu, .depthCallbacks, .unlockMu,
   .fetchOps,
   .clearRecent,
   .lockMu, .repopulateAndMatch, .updateBest, .unlockMu]

/-- Phases that mutate the recent-inclusion cache. -/
def mutatesRecent : CyclePhase → Bool
  | .clearRecent => true
  | .repopulateAndMatch => true
  | _ => false

/-- Number of unmatched lock acquisitions after a phase list runs. -/
def locksHeld (l : List CyclePhase) : Nat :=
  l.foldl (fun n p => match p with
    | .lockMu => n + 1
    | .unlockMu => n - 1
    | _ => n) 0

/-- Whether the mutex is held when the phase at index `i` of the cycle runs. -/
def muHeldAt (i : Nat) : Bool :=
  decide (0 < locksHeld (cyclePhases.take i))

end TzgoObs

namespace TaqCompose

/-!
Embedding of `internal/compose/taqconfig.go`.  Go strings stay Lean strings,
but the string primitives borrowed from Go's standard library are redefined on
the underlying character lists so that concrete instances reduce in the
kernel.  External collaborators (`encoding/json` unmarshalling and
`tezos.ParsePrivateKey` / address derivation) are parameters of the functions
that call them.
-/

open TzgoObs (alookup ainsert aerase)

/-- `strings.HasPrefix(s, p)`. -/
def hasPrefixGo (p s : String) : Bool :=
  p.data.isPrefixOf s.data

/-- `strings.TrimPrefix(s, p)`: drops `p` from the front when present,
otherwise returns `s` unchanged. -/
def trimPrefixGo (p s : String) : String :=
  if hasPrefixGo p s then ⟨s.data.drop p.data.length⟩ else s

/-- `TaqAccount` (project-config account: only a balance). -/
structure TaqAccount where
  balanceAmount : String
  balanceUnits : String
deriving DecidableEq

/-- `TaqEnvAccount`: the per-environment account record with its keys. -/
structure TaqEnvAccount where
  encryptedKey : String
  publicKeyHash : String
  secretKey : String
deriving DecidableEq

/-- `TaqConfig` restricted to the fields the config path reads. -/
structure TaqConfig where
  accounts : List (String × TaqAccount)
deriving DecidableEq

/-- `TaqConfigEnv`. -/
structure TaqConfigEnv where
  accounts : List (String × TaqEnvAccount)
  accountDefault : String
  rpcUrl : String
deriving DecidableEq

/-- `TaqConfigSet`. -/
structure TaqConfigSet where
  taqConfig : TaqConfig
  taqConfigEnv : TaqConfigEnv
deriving DecidableEq

/-- `ParseTaqConfig`, parameterised by the two `json.Unmarshal` decoders:
empty inputs and failed decodes each return a distinguishable
`E_TAQ_ERROR` message. -/
def ParseTaqConfig (decodeConfig : String → Option TaqConfig)
    (decodeEnv : String → Option TaqConfigEnv)
    (taqConfigJSON taqEnvConfigJSON : String) : Except String TaqConfigSet :=
  if taqConfigJSON = "" then
    .error "E_TAQ_ERROR: Missing taqueria project configuration"
  else if taqEnvConfigJSON = "" then
    .error "E_TAQ_ERROR: Missing taqueria local environment configuration"
  else
    match decodeConfig taqConfigJSON with
    | none => .error "E_TAQ_ERROR: Invalid taqueria project configuration"
    | some config =>
      match decodeEnv taqEnvConfigJSON with
      | none => .error "E_TAQ_ERROR: Invalid taqueria local environment configuration"
      | some envConfig => .ok ⟨config, envConfig⟩

/-- `IsFlagSpecified` match condition for one argument:
`strings.HasPrefix(arg, "-") && strings.TrimPrefix(arg, "-") == flag`. -/
def flagMatches (flag arg : String) : Bool :=
  hasPrefixGo "-" arg && (trimPrefixGo "-" arg == flag)

/-- `IsFlagSpecified(flag)` over an explicit argument vector. -/
def IsFlagSpecified (args : List String) (flag : String) : Bool :=
  args.any (flagMatches flag)

/-- `getFlagValue(flag)` over an explicit argument vector: scanning for the
first matching argument and returning the next element.  The source indexes
`os.Args[i+1]` with no bounds check, so a match at the last position is an
out-of-range access (a runtime panic), modelled as `none`; the fallthrough
returns the empty string. -/
def getFlagValue (args : List String) (flag : String) : Option String :=
  match args with
  | [] => some ""
  | a :: rest =>
    if flagMatches flag a then
      match rest with
      | [] => none
      | b :: _ => some b
    else getFlagValue rest flag

/-- `Account` from the compose context, over abstract key and address types. -/
structure Account (κ α : Type) where
  address : α
  privateKey : κ
  id : Int

/-- The slice of the compose `Context` that the taq-config path builds:
the base account, the account map and the named vars. -/
structure Context (κ α : Type) where
  baseAccount : Option (Account κ α)
  accounts : List (α × Account κ α)
  vars : List (String × String)

/-- The empty context produced by `NewContext`. -/
def NewContext (κ α : Type) : Context κ α :=
  { baseAccount := none, accounts := [], vars := [] }

/-- `isDefaultAccount`. -/
def isDefaultAccount (accountName defaultAccountName : String) : Bool :=
  accountName == defaultAccountName

/-- `getAccountId`: the default account gets id -1, others the running count. -/
def getAccountId (accountName defaultAccountName : String) (nextId : Int) : Int :=
  if isDefaultAccount accountName defaultAccountName then -1 else nextId

/-- The external key collaborator: `tezos.ParsePrivateKey` as a fallible
parser, the zero value a failed Go multi-return leaves in `sk`, and the
address derivation `sk.Address()` with its string rendering. -/
structure KeyOps (κ α : Type) where
  parsePrivateKey : String → Except String κ
  zeroKey : κ
  address : κ → α
  render : α → String

/-- `mapTaqEnvAccountToContextAccount`: for each environment account, trim the
`unencrypted:` prefix and parse the secret key — a parse error is only printed
(collected here in the returned log) and execution continues with the
zero-value key — then build the account, set it as base account when it is the
default, and record it in the accounts map and vars.  The function
returns no error. -/
def mapTaqEnvAccountToContextAccount {κ α : Type} [DecidableEq α]
    (ops : KeyOps κ α) (ctx : Context κ α)
    (taqAccounts : List (String × TaqEnvAccount)) (taqAccountDefault : String) :
    Context κ α × List String :=
  go ctx taqAccounts 1 []
where
  go (ctx : Context κ α) : List (String × TaqEnvAccount) → Int → List String →
      Context κ α × List String
    | [], _, log => (ctx, log.reverse)
    | (accountName, taqAccount) :: rest, count, log =>
      let str_sk := trimPrefixGo "unencrypted:" taqAccount.secretKey
      let (sk, log) := match ops.parsePrivateKey str_sk with
        | .error e => (ops.zeroKey, e :: log)
        | .ok sk => (sk, log)
      let account : Account κ α :=
        { address := ops.address sk
          privateKey := sk
          id := getAccountId accountName taqAccountDefault count }
      let ctx := if isDefaultAccount accountName taqAccountDefault then
          { ctx with baseAccount := some account }
        else ctx
      let ctx := { ctx with
        accounts := ainsert account.address account ctx.accounts
        vars := ainsert accountName (ops.render account.address) ctx.vars }
      go ctx rest (count + 1) log

/-- `UpdateTaqContext`: fails fast when either account map is empty, defaults
the account name to the first environment account when unset, then maps the
environment accounts into the context.  Key-parse failures inside the mapping
do not surface here: the call returns `ok` regardless, with the swallowed
error messages as the log. -/
def UpdateTaqContext {κ α : Type} [DecidableEq α] (ops : KeyOps κ α)
    (ctx : Context κ α) (taqConfigSet : TaqConfigSet) :
    Except String (Context κ α × List String) :=
  if taqConfigSet.taqConfig.accounts.length = 0 then
    .error "E_TAQ_ERROR: No accounts configured"
  else if taqConfigSet.taqConfigEnv.accounts.length = 0 then
    .error "E_TAQ_ERROR: No accounts configured"
  else
    let accountDefault :=
      if taqConfigSet.taqConfigEnv.accountDefault = "" then
        match taqConfigSet.taqConfigEnv.accounts with
        | [] => none
        | (accountName, _) :: _ => some accountName
      else some taqConfigSet.taqConfigEnv.accountDefault
    match accountDefault with
    | none => .error "E_TAQ_ERROR: No default account specified"
    | some dflt =>
      .ok (mapTaqEnvAccountToContextAccount ops ctx taqConfigSet.taqConfigEnv.accounts dflt)

end TaqCompose

namespace TzgoObs

/-- A callback that always requests removal of its watcher. -/
def cbAlwaysRemove : ObserverCallback := fun _ _ _ _ _ => true

/-- A callback that never requests removal of its watcher. -/
def cbNeverRemove : ObserverCallback := fun _ _ _ _ _ => false

/-- Concrete observer whose recent-inclusion cache holds hash 42 at
height 5, batch 0, position 3, with best hash 9. -/
def cachedObserver : Observer :=
  { NewObserver with recent := [(42, (5, 0, 3))], bestHash := 9 }

/-- Concrete observer with one live, not yet matched watcher (id 1) on
hash 42. -/
def watchingObserver : Observer :=
  { NewObserver with
    subs := [(1, ⟨1, cbNeverRemove, 42, false⟩)], watched := [(42, 1)], seq := 1 }

/-- Concrete observer with one already-matched watcher (id 1) on hash 42 whose
callback requests removal. -/
def matchedObserver : Observer :=
  { NewObserver with
    subs := [(1, ⟨1, cbAlwaysRemove, 42, true⟩)], watched := [(42, 1)], seq := 1 }

/-- A loop-pass environment whose stream-open attempt fails with status 404
and whose polling results all succeed trivially. -/
def env404 : CycleEnv :=
  { done := false, openRes := some 404, doneInBackoff := false, recvRes := none,
    tipRes := some 3, hashRes := some 8, fetched := some [], doneInWait := false }

/-- A loop-pass environment for a plain successful polling pass. -/
def envPoll : CycleEnv :=
  { done := false, openRes := none, doneInBackoff := false, recvRes := none,
    tipRes := some 3, hashRes := some 8, fetched := some [[42]], doneInWait := false }

/-- A loop state already downgraded to polling mode. -/
def pollState : LoopState :=
  { initLoopState NewObserver with useEvents := false }

end TzgoObs

namespace TaqCompose

/-- Concrete key collaborator over strings: only the literal secret key
`edsk3valid` parses; everything else fails; the zero value of the key type is
the empty string and the address is `addr:` followed by the key. -/
def strKeyOps : KeyOps String String :=
  { parsePrivateKey := fun s => if s = "edsk3valid" then .ok s else .error "invalid private key"
    zeroKey := ""
    address := fun k => "addr:" ++ k
    render := fun a => a }

/-- Concrete configuration set whose single environment account carries a
malformed secret key. -/
def badCfgSet : TaqConfigSet :=
  { taqConfig := { accounts := [("bob", ⟨"", ""⟩)] }
    taqConfigEnv :=
      { accounts := [("bob", ⟨"", "", "unencrypted:garbage"⟩)]
        accountDefault := "bob", rpcUrl := "" } }

end TaqCompose

/-! ## Helper lemmas -/

namespace TzgoObs

theorem alookup_aerase_self {α β : Type} [DecidableEq α] (k : α) (l : List (α × β)) :
    alookup k (aerase k l) = none := by
  induction l with
  | nil => rfl
  | cons p rest ih =>
    obtain ⟨k', v'⟩ := p
    by_cases h : k' = k
    · simpa [aerase, h] using ih
    · simpa [aerase, alookup, h] using ih

theorem alookup_ainsert_self {α β : Type} [DecidableEq α] (k : α) (v : β)
    (l : List (α × β)) : alookup k (ainsert k v l) = some v := by
  simp [ainsert, alookup]

theorem mem_aerase {α β : Type} [DecidableEq α] {k : α} {l : List (α × β)}
    {p : α × β} (h : p ∈ aerase k l) : p ∈ l := by
  induction l with
  | nil => simp [aerase] at h
  | cons q rest ih =>
    obtain ⟨k', v'⟩ := q
    by_cases hk : k' = k
    · simp only [aerase, if_pos hk] at h
      exact List.mem_cons_of_mem _ (ih h)
    · simp only [aerase, if_neg hk, List.mem_cons] at h
      rcases h with h | h
      · exact h ▸ List.mem_cons_self _ _
      · exact List.mem_cons_of_mem _ (ih h)

end TzgoObs

/-! ## C8: lock discipline of the recent-inclusion cache rebuild -/

namespace TzgoObs

/-- C8: the claim that the recent-inclusion cache is fully cleared and
repopulated while the shared mutex is held fails on the code: in the cycle's
program order the clear of the cache (phase index 4, observer.go lines
444-447) mutates the cache with the mutex not held — only the repopulation
(phase index 6) runs under the lock — so a concurrent `Subscribe`, which reads
the cache under the lock, can run between clear and repopulation or race the
unlocked clear itself. -/
theorem recent_clear_unlocked :
    cyclePhases.get? 4 = some .clearRecent ∧
    mutatesRecent .clearRecent = true ∧
    muHeldAt 4 = false ∧
    cyclePhases.get? 6 = some .repopulateAndMatch ∧
    muHeldAt 6 = true ∧
    ¬ (∀ i < cyclePhases.length,
        ∀ p, cyclePhases.get? i = some p → mutatesRecent p = true → muHeldAt i = true) := by
  refine ⟨rfl, rfl, rfl, rfl, rfl, ?_⟩
  intro hall
  have h4 := hall 4 (by decide) .clearRecent rfl rfl
  exact absurd h4 (by decide)

end TzgoObs

/-! ## C9: getFlagValue out-of-range access -/

namespace TaqCompose

/-- C9: `getFlagValue` indexes `os.Args[i+1]` without a bounds check: when the
flag token is the last argument the access is out of range (modelled `none`,
first conjunct shows a concrete panicking input); conversely an undefined
result only arises when the first matching flag token is the final argument,
so the function returns a defined value whenever the flag is absent (third
conjunct: the fallthrough empty string) or is followed by another argument. -/
theorem getFlagValue_oob :
    getFlagValue ["tzcompose", "-taqconfig"] "taqconfig" = none ∧
    (∀ args flag, getFlagValue args flag = none →
      ∃ pre a, args = pre ++ [a] ∧ flagMatches flag a = true ∧
        ∀ b ∈ pre, flagMatches flag b = false) ∧
    (∀ args flag, (∀ a ∈ args, flagMatches flag a = false) →
      getFlagValue args flag = some "") := by
  refine ⟨by decide, ?_, ?_⟩
  · intro args flag hnone
    induction args with
    | nil => simp [getFlagValue] at hnone
    | cons a rest ih =>
      by_cases hm : flagMatches flag a = true
      · cases rest with
        | nil => exact ⟨[], a, rfl, hm, by simp⟩
        | cons b rest' => simp [getFlagValue, hm] at hnone
      · have hrec : getFlagValue rest flag = none := by
          simpa [getFlagValue, hm] using hnone
        obtain ⟨pre, x, heq, hx, hpre⟩ := ih hrec
        refine ⟨a :: pre, x, by simp [heq], hx, ?_⟩
        intro b hb
        rcases List.mem_cons.mp hb with hba | hbp
        · simpa [hba] using hm
        · exact hpre b hbp
  · intro args flag habs
    induction args with
    | nil => rfl
    | cons a rest ih =>
      have ha : flagMatches flag a = false := habs a (List.mem_cons_self _ _)
      have := ih fun b hb => habs b (List.mem_cons_of_mem _ hb)
      simpa [getFlagValue, ha]

/-- C9 witness: the undefined case at a concrete argument vector where the
flag stands last, and the defined case at one where it is absent. -/
theorem getFlagValue_oob_witness :
    (getFlagValue ["-x"] "x" = none ∧
      ∃ pre a, ["-x"] = pre ++ [a] ∧ flagMatches "x" a = true ∧
        ∀ b ∈ pre, flagMatches "x" b = false) ∧
    ((∀ a ∈ ["tzcompose"], flagMatches "x" a = false) ∧
      getFlagValue ["tzcompose"] "x" = some "") :=
  ⟨⟨by decide, getFlagValue_oob.2.1 ["-x"] "x" (by decide)⟩,
   ⟨by decide, getFlagValue_oob.2.2 ["tzcompose"] "x" (by decide)⟩⟩

/-! ## C7: configuration errors at the account/environment boundary -/

/-- C7: a malformed account secret key does not fail fast: with a key parser
that rejects the configured secret key, `UpdateTaqContext` still returns
success — the parse error is merely printed (the returned log), and the
context is populated with an account built from the zero-value key, exactly
the silently-swallowed partial state the spec rules out.  (Missing or invalid
JSON and missing accounts do return `E_TAQ_ERROR` values; the secret-key path
is the slip.) -/
theorem secret_key_error_swallowed :
    UpdateTaqContext strKeyOps (NewContext String String) badCfgSet =
      .ok ({ baseAccount := some { address := "addr:", privateKey := "", id := -1 }
             accounts := [("addr:", { address := "addr:", privateKey := "", id := -1 })]
             vars := [("bob", "addr:")] },
           ["invalid private key"]) := by
  rfl

end TaqCompose

/-! ## C2: late-subscribe catch-up -/

namespace TzgoObs

/-- C2: subscribing to a hash present in the recent-inclusion cache invokes
the callback exactly once, synchronously, with the cached height, batch and
position, the current best hash, and `isFinal = false`; if the callback
returns true the new watcher's subscription entry is deleted before
`Subscribe` returns; a hash not in the cache triggers no callback during
`Subscribe`. -/
theorem subscribe_catchup_spec (m : Observer) (oh : OpHash) (cb : ObserverCallback) :
    (∀ pos, alookup oh m.recent = some pos →
      (Subscribe m oh cb).2.2 =
        [⟨m.seq + 1, m.bestHash, pos.1, pos.2.1, pos.2.2, false⟩] ∧
      (cb m.bestHash pos.1 pos.2.1 pos.2.2 false = true →
        alookup (m.seq + 1) (Subscribe m oh cb).1.subs = none)) ∧
    (alookup oh m.recent = none → (Subscribe m oh cb).2.2 = []) := by
  constructor
  · intro pos hpos
    by_cases hcb : cb m.bestHash pos.1 pos.2.1 pos.2.2 false = true
    · simp [Subscribe, hpos, alookup_ainsert_self, hcb, alookup_aerase_self]
    · simp only [Bool.not_eq_true] at hcb
      simp [Subscribe, hpos, alookup_ainsert_self, hcb]
  · intro hpos
    simp [Subscribe, hpos]

/-- C2 witness: at the concrete cached observer and the always-remove
callback, the cache hypothesis holds, the single synchronous event is emitted
and the watcher is gone before `Subscribe` returns. -/
theorem subscribe_catchup_spec_witness :
    alookup 42 cachedObserver.recent = some (5, 0, 3) ∧
    ((Subscribe cachedObserver 42 cbAlwaysRemove).2.2 = [⟨1, 9, 5, 0, 3, false⟩] ∧
      (cbAlwaysRemove 9 5 0 3 false = true →
        alookup 1 (Subscribe cachedObserver 42 cbAlwaysRemove).1.subs = none)) :=
  ⟨rfl, (subscribe_catchup_spec cachedObserver 42 cbAlwaysRemove).1 (5, 0, 3) rfl⟩

/-! ## C3: new-match dispatch -/

/-- C3: while processing a fetched block, an operation hash `h` triggers a
callback iff the watched-hash index maps `h` to an id whose subscription is
still live and whose stored operation hash exactly equals `h`; then the
callback is invoked exactly once with `(newHead, height, batch, position,
false)`; stale index entries or differing stored hashes trigger nothing. -/
theorem dispatch_match_iff (hb : BlockHash) (hh l n : Int) (h : OpHash) (m : Observer) :
    (∀ id mtch, alookup h m.watched = some id → alookup id m.subs = some mtch →
      mtch.oh = h →
      (processHash hb hh l n h m).2 = [⟨mtch.id, hb, hh, l, n, false⟩]) ∧
    ((¬ ∃ id mtch, alookup h m.watched = some id ∧ alookup id m.subs = some mtch ∧
        mtch.oh = h) →
      (processHash hb hh l n h m).2 = []) := by
  constructor
  · intro id mtch hw hs hoh
    by_cases hcb : mtch.cb hb hh l n false = true
    · simp [processHash, hw, hs, hoh, hcb]
    · simp only [Bool.not_eq_true] at hcb
      simp [processHash, hw, hs, hoh, hcb]
  · intro hno
    rcases hw : alookup h m.watched with _ | id
    · simp [processHash, hw]
    · rcases hs : alookup id m.subs with _ | mtch
      · simp [processHash, hw, hs]
      · by_cases hoh : mtch.oh = h
        · exact absurd ⟨id, mtch, hw, hs, hoh⟩ hno
        · simp [processHash, hw, hs, hoh]

/-- C3 witness: at the concrete watching observer, hash 42 is live and equal,
so its processing emits exactly the position-reporting event. -/
theorem dispatch_match_iff_witness :
    alookup 42 watchingObserver.watched = some 1 ∧
    alookup 1 watchingObserver.subs = some ⟨1, cbNeverRemove, 42, false⟩ ∧
    (processHash 7 10 0 2 42 watchingObserver).2 = [⟨1, 7, 10, 0, 2, false⟩] :=
  ⟨rfl, rfl,
    (dispatch_match_iff 7 10 0 2 42 watchingObserver).1 1 ⟨1, cbNeverRemove, 42, false⟩
      rfl rfl rfl⟩

/-! ## C4: the matchedOnce postcondition -/

/-- C4 counterexample: a watcher whose hash is first observed through the
recent-inclusion cache at subscribe time, and whose callback returns false,
does NOT get its `matched` flag set — the callback fires (first conjunct) yet
the stored watcher still has `matched = false` (second conjunct), contrary to
the claim that both observation paths set the flag. -/
theorem subscribe_matched_counterexample :
    (Subscribe cachedObserver 42 cbNeverRemove).2.2 = [⟨1, 9, 5, 0, 3, false⟩] ∧
    (alookup 1 (Subscribe cachedObserver 42 cbNeverRemove).1.subs).map
      observerSubscription.matched = some false := by
  exact ⟨rfl, rfl⟩

/-- C4 amended: the `matched` flag is set true exactly by the block-processing
path — when a live watcher's hash is observed in a fetched block and its
callback returns false, the stored subscription is updated with
`matched = true` (first conjunct) — while the subscribe-time catch-up path
leaves the just-created watcher with `matched = false` even after its callback
ran and returned false (second conjunct). -/
theorem matched_flag_amended :
    (∀ (hb : BlockHash) (hh l n : Int) (h : OpHash) (m : Observer) (id : Nat)
        (mtch : observerSubscription),
      alookup h m.watched = some id → alookup id m.subs = some mtch → mtch.oh = h →
      mtch.cb hb hh l n false = false →
      alookup id (processHash hb hh l n h m).1.subs =
        some { mtch with matched := true }) ∧
    (∀ (m : Observer) (oh : OpHash) (cb : ObserverCallback) (pos : Int × Int × Int),
      alookup oh m.recent = some pos →
      cb m.bestHash pos.1 pos.2.1 pos.2.2 false = false →
      alookup (m.seq + 1) (Subscribe m oh cb).1.subs =
        some ⟨m.seq + 1, cb, oh, false⟩) := by
  constructor
  · intro hb hh l n h m id mtch hw hs hoh hcb
    simp [processHash, hw, hs, hoh, hcb, alookup_ainsert_self]
  · intro m oh cb pos hpos hcb
    simp [Subscribe, hpos, alookup_ainsert_self, hcb]

/-- C4 amended witness: the block-processing path at the concrete watching
observer sets the flag; the subscribe-time path at the concrete cached
observer leaves it false. -/
theorem matched_flag_amended_witness :
    (alookup 42 watchingObserver.watched = some 1 ∧
      cbNeverRemove 7 10 0 2 false = false ∧
      alookup 1 (processHash 7 10 0 2 42 watchingObserver).1.subs =
        some ⟨1, cbNeverRemove, 42, true⟩) ∧
    (alookup 42 cachedObserver.recent = some (5, 0, 3) ∧
      alookup 1 (Subscribe cachedObserver 42 cbNeverRemove).1.subs =
        some ⟨1, cbNeverRemove, 42, false⟩) :=
  ⟨⟨rfl, rfl,
    matched_flag_amended.1 7 10 0 2 42 watchingObserver 1 ⟨1, cbNeverRemove, 42, false⟩
      rfl rfl rfl rfl⟩,
   ⟨rfl, matched_flag_amended.2 cachedObserver 42 cbNeverRemove (5, 0, 3) rfl rfl⟩⟩

end TzgoObs

/-! ## C5: fetch-failure atomicity -/

namespace TzgoObs

theorem depthPass_subset (hb : BlockHash) (l : List (Nat × observerSubscription)) :
    ∀ p ∈ (depthPass hb l).1, p ∈ l := by
  induction l with
  | nil => intro p hp; simp [depthPass] at hp
  | cons q rest ih =>
    intro p hp
    obtain ⟨id, v⟩ := q
    by_cases hm : v.matched = true
    · by_cases hcb : v.cb hb (-1) (-1) (-1) false = true
      · simp only [depthPass, hm, hcb, if_true] at hp
        exact List.mem_cons_of_mem _ (ih p hp)
      · simp only [Bool.not_eq_true] at hcb
        simp only [depthPass, hm, hcb, if_true, Bool.false_eq_true, if_false,
          List.mem_cons] at hp
        rcases hp with hp | hp
        · exact hp ▸ List.mem_cons_self _ _
        · exact List.mem_cons_of_mem _ (ih p hp)
    · simp only [Bool.not_eq_true] at hm
      simp only [depthPass, hm, Bool.false_eq_true, if_false, List.mem_cons] at hp
      rcases hp with hp | hp
      · exact hp ▸ List.mem_cons_self _ _
      · exact List.mem_cons_of_mem _ (ih p hp)

/-- C5 counterexample: a cycle whose operation-hash fetch fails is not
state-preserving for the subscription map — with one already-matched watcher
whose callback requests removal, the watcher is present at the start of the
cycle and gone after the failed cycle, because the depth-counting pass runs
before the fetch. -/
theorem fetch_failure_counterexample :
    (alookup 1 matchedObserver.subs).isSome = true ∧
    alookup 1 (processCycle matchedObserver 7 10 none).1.subs = none := by
  exact ⟨rfl, rfl⟩

/-- C5 amended: in a cycle whose operation-hash fetch fails, the
recent-inclusion cache, the watched-hash index and `bestHash`/`bestHeight` are
unchanged from the start of the cycle and the block is not retried; but the
subscription map has already been through the depth-counting pass (which
precedes the fetch), so it equals exactly the depth-pass result — a
subscription-preserving pass except that watchers whose callbacks requested
removal are gone (the pass only ever removes existing entries, last
conjunct). -/
theorem fetch_failure_amended (m : Observer) (hb : BlockHash) (hh : Int) :
    (processCycle m hb hh none).1.recent = m.recent ∧
    (processCycle m hb hh none).1.watched = m.watched ∧
    (processCycle m hb hh none).1.bestHash = m.bestHash ∧
    (processCycle m hb hh none).1.bestHeight = m.bestHeight ∧
    (processCycle m hb hh none).1.subs = (depthPass hb m.subs).1 ∧
    (processCycle m hb hh none).2 = (depthPass hb m.subs).2 ∧
    (∀ p ∈ (processCycle m hb hh none).1.subs, p ∈ m.subs) := by
  refine ⟨rfl, rfl, rfl, rfl, rfl, rfl, ?_⟩
  exact depthPass_subset hb m.subs

/-- C5 amended witness: the frame equalities and the only-removals property at
the concrete matched observer and a failing fetch. -/
theorem fetch_failure_amended_witness :
    (processCycle matchedObserver 7 10 none).1.recent = matchedObserver.recent ∧
    (processCycle matchedObserver 7 10 none).1.watched = matchedObserver.watched ∧
    (processCycle matchedObserver 7 10 none).1.bestHash = matchedObserver.bestHash ∧
    (processCycle matchedObserver 7 10 none).1.bestHeight = matchedObserver.bestHeight ∧
    (processCycle matchedObserver 7 10 none).1.subs =
      (depthPass 7 matchedObserver.subs).1 ∧
    (processCycle matchedObserver 7 10 none).2 = (depthPass 7 matchedObserver.subs).2 ∧
    (∀ p ∈ (processCycle matchedObserver 7 10 none).1.subs, p ∈ matchedObserver.subs) :=
  fetch_failure_amended matchedObserver 7 10

end TzgoObs

/-! ## C1: the two-map registry invariant -/

namespace TzgoObs

theorem Subscribe_frame (m : Observer) (oh : OpHash) (cb : ObserverCallback) :
    (Subscribe m oh cb).1.watched = ainsert oh (m.seq + 1) m.watched ∧
    (Subscribe m oh cb).1.seq = m.seq + 1 := by
  cases hrec : alookup oh m.recent with
  | none => simp [Subscribe, hrec]
  | some pos =>
    cases hcb : cb m.bestHash pos.1 pos.2.1 pos.2.2 false with
    | true => simp [Subscribe, hrec, alookup_ainsert_self, hcb]
    | false => simp [Subscribe, hrec, alookup_ainsert_self, hcb]

theorem processHash_frame (hb : BlockHash) (hh l n : Int) (h : OpHash) (m : Observer) :
    (processHash hb hh l n h m).1.watched = m.watched ∧
    (processHash hb hh l n h m).1.seq = m.seq := by
  cases hw : alookup h m.watched with
  | none => simp [processHash, hw]
  | some id =>
    cases hs : alookup id m.subs with
    | none => simp [processHash, hw, hs]
    | some mtch =>
      by_cases hoh : mtch.oh = h
      · cases hcb : mtch.cb hb hh l n false with
        | true => simp [processHash, hw, hs, hoh, hcb]
        | false => simp [processHash, hw, hs, hoh, hcb]
      · simp [processHash, hw, hs, hoh]

theorem processBatch_frame (hb : BlockHash) (hh l : Int) (list : List OpHash) :
    ∀ (n : Int) (m : Observer),
      (processBatch hb hh l n list m).1.watched = m.watched ∧
      (processBatch hb hh l n list m).1.seq = m.seq := by
  induction list with
  | nil => intro n m; exact ⟨rfl, rfl⟩
  | cons h rest ih =>
    intro n m
    have h1 := processHash_frame hb hh l n h m
    have h2 := ih (n + 1) (processHash hb hh l n h m).1
    exact ⟨h2.1.trans h1.1, h2.2.trans h1.2⟩

theorem processBatches_frame (hb : BlockHash) (hh : Int) (ohs : List (List OpHash)) :
    ∀ (l : Int) (m : Observer),
      (processBatches hb hh l ohs m).1.watched = m.watched ∧
      (processBatches hb hh l ohs m).1.seq = m.seq := by
  induction ohs with
  | nil => intro l m; exact ⟨rfl, rfl⟩
  | cons list rest ih =>
    intro l m
    have h1 := processBatch_frame hb hh l list 0 m
    have h2 := ih (l + 1) (processBatch hb hh l 0 list m).1
    exact ⟨h2.1.trans h1.1, h2.2.trans h1.2⟩

theorem processCycle_frame (m : Observer) (hb : BlockHash) (hh : Int)
    (fetched : Option (List (List OpHash))) :
    (processCycle m hb hh fetched).1.watched = m.watched ∧
    (processCycle m hb hh fetched).1.seq = m.seq := by
  cases fetched with
  | none => exact ⟨rfl, rfl⟩
  | some ohs =>
    have h := processBatches_frame hb hh ohs 0
      { m with subs := (depthPass hb m.subs).1, recent := [] }
    exact ⟨h.1, h.2⟩

theorem applyStep_assigned {m : Observer} (s : ObsStep) (hm : watchedIdsAssigned m) :
    watchedIdsAssigned (applyStep m s) := by
  cases s with
  | subscribe oh cb =>
    have hf := Subscribe_frame m oh cb
    intro p hp
    show 1 ≤ p.2 ∧ p.2 ≤ (Subscribe m oh cb).1.seq
    rw [hf.2]
    rw [show applyStep m (.subscribe oh cb) = (Subscribe m oh cb).1 from rfl, hf.1,
      ainsert] at hp
    rcases List.mem_cons.mp hp with hq | hq
    · rw [hq]; omega
    · have := hm p (mem_aerase hq); omega
  | unsubscribe id =>
    intro p hp
    show 1 ≤ p.2 ∧ p.2 ≤ (Unsubscribe m id).seq
    rcases h : alookup id m.subs with _ | req
    · rw [show applyStep m (.unsubscribe id) = Unsubscribe m id from rfl] at hp
      rw [Unsubscribe, h] at hp ⊢
      exact hm p hp
    · rw [show applyStep m (.unsubscribe id) = Unsubscribe m id from rfl] at hp
      rw [Unsubscribe, h] at hp ⊢
      exact hm p (mem_aerase hp)
  | close =>
    intro p hp
    simp [applyStep, Close] at hp
  | dispatch hb hh fetched =>
    have hf := processCycle_frame m hb hh fetched
    intro p hp
    show 1 ≤ p.2 ∧ p.2 ≤ (processCycle m hb hh fetched).1.seq
    rw [hf.2]
    rw [show applyStep m (.dispatch hb hh fetched) = (processCycle m hb hh fetched).1
      from rfl, hf.1] at hp
    exact hm p hp

theorem runSteps_assigned (steps : List ObsStep) :
    ∀ m : Observer, watchedIdsAssigned m → watchedIdsAssigned (runSteps m steps) := by
  induction steps with
  | nil => intro m hm; exact hm
  | cons s rest ih => intro m hm; exact ih _ (applyStep_assigned s hm)

/-- C1 counterexample: the two-map invariant is violated at a state reachable
by real steps — dispatch a block containing hash 42 (populating the recent
cache), then subscribe to 42 with a callback that requests removal: the
catch-up removal deletes only the subs entry, so the watched index still maps
42 to id 1 while the subscription map has no entry 1. -/
theorem watched_inv_counterexample :
    let st := runSteps NewObserver
      [ObsStep.dispatch 7 1 (some [[42]]), ObsStep.subscribe 42 cbAlwaysRemove]
    alookup 42 st.watched = some 1 ∧ alookup 1 st.subs = none ∧
      watchedSubsInv st = false :=
  ⟨rfl, rfl, rfl⟩

/-- C1 amended: every id occurring as a value of the watched-hash index was
assigned by some past Subscribe (it is positive and at most the current `seq`
counter) at every state reachable by Subscribe, Unsubscribe, Close and
engine-dispatch steps; and `Unsubscribe` on a live id removes the subs entry
and the watched entry together in one step.  Removals requested by a callback
returning true (during Subscribe catch-up or dispatch) delete only the subs
entry, so a watched value need not be a live subs key; the dispatch pass
tolerates such stale entries by re-checking subs membership. -/
theorem watched_index_amended :
    (∀ steps : List ObsStep, watchedIdsAssigned (runSteps NewObserver steps)) ∧
    (∀ (m : Observer) (id : Nat) (req : observerSubscription),
      alookup id m.subs = some req →
      (Unsubscribe m id).subs = aerase id m.subs ∧
      (Unsubscribe m id).watched = aerase req.oh m.watched ∧
      alookup id (Unsubscribe m id).subs = none ∧
      alookup req.oh (Unsubscribe m id).watched = none) := by
  constructor
  · intro steps
    exact runSteps_assigned steps NewObserver (by intro p hp; simp [NewObserver] at hp)
  · intro m id req h
    rw [Unsubscribe, h]
    exact ⟨rfl, rfl, alookup_aerase_self id m.subs, alookup_aerase_self req.oh m.watched⟩

/-- C1 amended witness: the assigned-ids invariant at a concrete reachable
state, and the joint removal at the concrete matched observer. -/
theorem watched_index_amended_witness :
    watchedIdsAssigned (runSteps NewObserver [ObsStep.subscribe 5 cbNeverRemove]) ∧
    (alookup 1 matchedObserver.subs = some ⟨1, cbAlwaysRemove, 42, true⟩ ∧
      ((Unsubscribe matchedObserver 1).subs = aerase 1 matchedObserver.subs ∧
        (Unsubscribe matchedObserver 1).watched = aerase 42 matchedObserver.watched ∧
        alookup 1 (Unsubscribe matchedObserver 1).subs = none ∧
        alookup 42 (Unsubscribe matchedObserver 1).watched = none)) :=
  ⟨watched_index_amended.1 [ObsStep.subscribe 5 cbNeverRemove],
   ⟨rfl, watched_index_amended.2 matchedObserver 1 ⟨1, cbAlwaysRemove, 42, true⟩ rfl⟩⟩

end TzgoObs

/-! ## C6: one-way mode fallback -/

namespace TzgoObs

theorem processHead_frame (env : CycleEnv) (ls : LoopState) (acts : List LoopAction)
    (hb : BlockHash) (hh : Int) :
    (processHead env ls acts hb hh).1.useEvents = ls.useEvents ∧
    ∀ a ∈ (processHead env ls acts hb hh).2, a ∈ acts ∨ isStreamAction a = false := by
  unfold processHead
  by_cases hskip : hb = ls.obs.bestHash ∧ ls.useEvents = false
  · rw [if_pos hskip]
    constructor
    · dsimp only; split_ifs <;> rfl
    · intro a ha
      exact Or.inl ha
  · rw [if_neg hskip]
    constructor
    · dsimp only; split_ifs <;> rfl
    · intro a ha
      dsimp only at ha
      rcases List.mem_append.mp ha with h | h
      · exact Or.inl h
      · obtain ⟨ev, _, hev⟩ := List.mem_map.mp h
        exact Or.inr (by rw [← hev]; rfl)

theorem mem_append_pollTip {acts : List LoopAction} {a : LoopAction}
    (ha : a ∈ acts ++ [LoopAction.pollTip]) : a ∈ acts ∨ isStreamAction a = false := by
  rcases List.mem_append.mp ha with hm | hm
  · exact Or.inl hm
  · simp only [List.mem_singleton] at hm
    exact Or.inr (by rw [hm]; rfl)

theorem acquireHead_poll (env : CycleEnv) (ls : LoopState) (acts : List LoopAction)
    (h : ls.useEvents = false) :
    (acquireHead env ls acts).1.useEvents = false ∧
    ∀ a ∈ (acquireHead env ls acts).2, a ∈ acts ∨ isStreamAction a = false := by
  unfold acquireHead
  have hcond : ¬ (ls.mon = true ∧ ls.useEvents = true ∧ ls.firstLoop = false) := by
    simp [h]
  rw [if_neg hcond]
  cases htip : env.tipRes with
  | none =>
    dsimp only
    constructor
    · split_ifs <;> exact h
    · exact fun a ha => mem_append_pollTip ha
  | some lvl =>
    dsimp only
    cases hhash : env.hashRes with
    | none => exact ⟨h, fun a ha => mem_append_pollTip ha⟩
    | some hb =>
      dsimp only
      have hp := processHead_frame env { ls with firstLoop := false }
        (acts ++ [.pollTip]) hb lvl
      refine ⟨hp.1.trans h, fun a ha => ?_⟩
      rcases hp.2 a ha with hm | hm
      · exact mem_append_pollTip hm
      · exact Or.inr hm

theorem listenStep_poll (env : CycleEnv) (ls : LoopState) (h : ls.useEvents = false) :
    (listenStep env ls).1.useEvents = false ∧
    ∀ a ∈ (listenStep env ls).2, isStreamAction a = false := by
  unfold listenStep
  by_cases hstop : ls.stopped = true
  · rw [if_pos hstop]
    exact ⟨h, fun a ha => absurd ha (List.not_mem_nil a)⟩
  · rw [if_neg hstop]
    by_cases hdone : env.done = true
    · simp only [hdone, if_pos]
      exact ⟨h, fun a ha => absurd ha (List.not_mem_nil a)⟩
    · simp only [Bool.not_eq_true] at hdone
      simp only [hdone, Bool.false_eq_true, if_false]
      have hcond : ¬ (ls.mon = false ∧ ls.useEvents = true) := by simp [h]
      rw [if_neg hcond]
      have ha := acquireHead_poll env ls [] h
      refine ⟨ha.1, fun a hmem => ?_⟩
      rcases ha.2 a hmem with hm | hm
      · exact absurd hm (List.not_mem_nil a)
      · exact hm

theorem runLoop_poll (envs : List CycleEnv) (ls : LoopState) (h : ls.useEvents = false) :
    (runLoop ls envs).1.useEvents = false ∧
    ∀ a ∈ (runLoop ls envs).2, isStreamAction a = false := by
  induction envs generalizing ls with
  | nil => exact ⟨h, fun a ha => absurd ha (List.not_mem_nil a)⟩
  | cons env rest ih =>
    have h1 := listenStep_poll env ls h
    have h2 := ih (listenStep env ls).1 h1.1
    refine ⟨h2.1, fun a ha => ?_⟩
    have : a ∈ (listenStep env ls).2 ++ (runLoop (listenStep env ls).1 rest).2 := by
      simpa [runLoop] using ha
    rcases List.mem_append.mp this with hm | hm
    · exact h1.2 a hm
    · exact h2.2 a hm

/-- C6: when a pass of the engine loop attempts to open a header stream and
the attempt fails with the unsupported status 404, the pass ends with
`useEvents = false` (first conjunct); and from any state with
`useEvents = false`, every run of the loop keeps `useEvents = false` forever
and performs no stream-open attempt and no stream receive — the polling path
exclusively (second conjunct).  No transition back to streaming exists. -/
theorem mode_fallback_one_way :
    (∀ (env : CycleEnv) (ls : LoopState), ls.stopped = false → env.done = false →
      ls.mon = false → ls.useEvents = true → env.openRes = some 404 →
      (listenStep env ls).1.useEvents = false ∧
      (listenStep env ls).2 = [.openAttempt]) ∧
    (∀ (envs : List CycleEnv) (ls : LoopState), ls.useEvents = false →
      (runLoop ls envs).1.useEvents = false ∧
      ∀ a ∈ (runLoop ls envs).2, isStreamAction a = false) := by
  constructor
  · intro env ls hstop hdone hmon huse hopen
    rw [listenStep, if_neg (by simp [hstop]), hdone]
    simp only [Bool.false_eq_true, if_false]
    rw [if_pos ⟨hmon, huse⟩, hopen]
    simp
  · exact runLoop_poll

/-- C6 witness: the 404 downgrade at the freshly started loop state, and the
polling-only run over concrete environments from a downgraded state. -/
theorem mode_fallback_one_way_witness :
    ((initLoopState NewObserver).stopped = false ∧ env404.done = false ∧
      (initLoopState NewObserver).mon = false ∧
      (initLoopState NewObserver).useEvents = true ∧ env404.openRes = some 404 ∧
      ((listenStep env404 (initLoopState NewObserver)).1.useEvents = false ∧
        (listenStep env404 (initLoopState NewObserver)).2 = [.openAttempt])) ∧
    (pollState.useEvents = false ∧
      ((runLoop pollState [envPoll, env404]).1.useEvents = false ∧
        ∀ a ∈ (runLoop pollState [envPoll, env404]).2, isStreamAction a = false)) :=
  ⟨⟨rfl, rfl, rfl, rfl, rfl,
    mode_fallback_one_way.1 env404 (initLoopState NewObserver) rfl rfl rfl rfl rfl⟩,
   ⟨rfl, mode_fallback_one_way.2 [envPoll, env404] pollState rfl⟩⟩

end TzgoObs
